import Mathlib

/-!
Verification of the FavBox replicated bookmark-document engine.

The document model (bookmarks, folders, tag counters) and its mutation
operations are embedded from the CRDT document module
(src/crdt/BookmarkDocument.js); the reconnect backoff from the backend
client (src/services/backend.js); the undoable-deletion composable from
src/composables/useBookmarkActions.js; the operation-log schema and the
server configuration from the server sources.  Components whose
implementation is not present in the repository snapshot (the Automerge
merge engine, the append/sync/snapshot server routes) are modelled from
the specification and are marked as such in their doc comments.

JavaScript objects used as maps are embedded as association lists with
in-place update semantics (updating an existing key keeps its position,
a new key is appended), matching JS object key order.  Ambient wall-clock
time (Date.now()) is passed as an explicit argument.  Tag reference
counts are embedded as integers, exactly because the property of interest
is that the code never drives them negative.
-/

namespace Favbox

/-- Lookup in an association list keyed by strings (JS object property read). -/
def alGet {V : Type} (m : List (String × V)) (k : String) : Option V :=
  match m with
  | [] => none
  | (k', v) :: rest => if k' = k then some v else alGet rest k

/-- Write in an association list (JS object property assignment): an existing
key is updated in place, a fresh key is appended at the end. -/
def alSet {V : Type} (m : List (String × V)) (k : String) (v : V) : List (String × V) :=
  match m with
  | [] => [(k, v)]
  | (k', v') :: rest => if k' = k then (k, v) :: rest else (k', v') :: alSet rest k v

/-- Deletion from an association list (JS Map.delete / delete obj[k]). -/
def alErase {V : Type} (m : List (String × V)) (k : String) : List (String × V) :=
  match m with
  | [] => []
  | (k', v') :: rest => if k' = k then rest else (k', v') :: alErase rest k

/-- Document metadata, from initFavboxDocument in BookmarkDocument.js. -/
structure DocMetadata where
  userId : String
  deviceId : String
  version : String
  createdAt : Nat
deriving DecidableEq, Repr

/-- A bookmark record, with the exact field set written by addBookmark in
BookmarkDocument.js. -/
structure Bookmark where
  id : String
  browserId : String
  url : String
  title : String
  description : String
  folderId : String
  folderPath : String
  tags : List String
  notes : String
  favicon : String
  image : String
  domain : String
  keywords : List String
  httpStatus : Nat
  pinned : Nat
  createdAt : Nat
  updatedAt : Nat
  deleted : Bool
  deletedAt : Option Nat
deriving DecidableEq, Repr

/-- A folder record, with the field set written by addFolder in
BookmarkDocument.js. -/
structure Folder where
  id : String
  browserId : String
  title : String
  parentId : String
  path : String
  order : Nat
  createdAt : Nat
  updatedAt : Nat
  deleted : Bool
deriving DecidableEq, Repr

/-- The caller-supplied bookmark object accepted by addBookmark; optional
fields mirror the JS defaulting expressions (bookmark.field or default). -/
structure BookmarkInput where
  id : String
  browserId : Option String
  url : String
  title : Option String
  description : Option String
  folderId : Option String
  folderPath : Option String
  tags : Option (List String)
  notes : Option String
  favicon : Option String
  image : Option String
  domain : Option String
  keywords : Option (List String)
  httpStatus : Option Nat
  createdAt : Option Nat
deriving DecidableEq, Repr

/-- The caller-supplied folder object accepted by addFolder. -/
structure FolderInput where
  id : String
  browserId : Option String
  title : String
  parentId : Option String
  path : Option String
  createdAt : Option Nat
deriving DecidableEq, Repr

/-- The changes object accepted by updateBookmark: a partial record, one
optional entry per updatable field (Object.keys iteration in the JS). -/
structure BookmarkChanges where
  url : Option String
  title : Option String
  description : Option String
  folderId : Option String
  folderPath : Option String
  tags : Option (List String)
  notes : Option String
deriving DecidableEq, Repr

/-- The FavBox CRDT document state initialized by initFavboxDocument:
bookmark map, folder map, tag usage counters, and tombstone records. -/
structure FavboxDoc where
  metadata : DocMetadata
  bookmarks : List (String × Bookmark)
  folders : List (String × Folder)
  tags : List (String × Int)
  deletedBookmarks : List (String × Bookmark)
  deletedFolders : List (String × Bookmark)
deriving DecidableEq, Repr

/-- Model of the hostname read new URL(url).hostname performs in
addBookmark: the text after the scheme separator up to the first
delimiter. -/
def urlHostname (url : String) : String :=
  let rest := match url.splitOn "://" with
    | _ :: r :: _ => r
    | _ => url
  rest.takeWhile (fun c => c != '/' && c != ':' && c != '?' && c != '#')

/-- Tag counter increment from addBookmark and updateBookmark: a missing
tag entry is created with count 1, an existing one is incremented. -/
def incTag (tags : List (String × Int)) (t : String) : List (String × Int) :=
  match alGet tags t with
  | none => alSet tags t 1
  | some c => alSet tags t (c + 1)

/-- Tag counter decrement from updateBookmark and deleteBookmark: the
count is decremented only when the entry exists and its count is
strictly positive. -/
def decTag (tags : List (String × Int)) (t : String) : List (String × Int) :=
  match alGet tags t with
  | some c => if 0 < c then alSet tags t (c - 1) else tags
  | none => tags

/-- initFavboxDocument: fresh document with metadata and empty collections. -/
def initFavboxDocument (userId deviceId : String) (now : Nat) : FavboxDoc :=
  { metadata := { userId := userId, deviceId := deviceId, version := "1.0.0", createdAt := now }
    bookmarks := []
    folders := []
    tags := []
    deletedBookmarks := []
    deletedFolders := [] }

/-- addBookmark: writes the bookmark record (with JS defaulting) into the
bookmark map and increments the counters of its tags. -/
def addBookmark (doc : FavboxDoc) (bm : BookmarkInput) (now : Nat) : FavboxDoc :=
  let record : Bookmark :=
    { id := bm.id
      browserId := bm.browserId.getD ""
      url := bm.url
      title := bm.title.getD ""
      description := bm.description.getD ""
      folderId := bm.folderId.getD "root"
      folderPath := bm.folderPath.getD "/"
      tags := bm.tags.getD []
      notes := bm.notes.getD ""
      favicon := bm.favicon.getD ""
      image := bm.image.getD ""
      domain := bm.domain.getD (urlHostname bm.url)
      keywords := bm.keywords.getD []
      httpStatus := bm.httpStatus.getD 0
      pinned := 0
      createdAt := bm.createdAt.getD now
      updatedAt := now
      deleted := false
      deletedAt := none }
  let tags' := match bm.tags with
    | some ts => if 0 < ts.length then ts.foldl incTag doc.tags else doc.tags
    | none => doc.tags
  { doc with bookmarks := alSet doc.bookmarks bm.id record, tags := tags' }

/-- Field-by-field application of an updateBookmark changes object
(Object.keys(changes) assignment loop). -/
def applyChanges (bm : Bookmark) (ch : BookmarkChanges) : Bookmark :=
  { bm with
    url := ch.url.getD bm.url
    title := ch.title.getD bm.title
    description := ch.description.getD bm.description
    folderId := ch.folderId.getD bm.folderId
    folderPath := ch.folderPath.getD bm.folderPath
    tags := ch.tags.getD bm.tags
    notes := ch.notes.getD bm.notes }

/-- updateBookmark: no-op (with a warning log) when the bookmark id is
absent; otherwise decrements the old tags' counters when a tags change is
supplied, applies the changes, stamps updatedAt, and increments the new
tags' counters. -/
def updateBookmark (doc : FavboxDoc) (bookmarkId : String) (ch : BookmarkChanges) (now : Nat) :
    FavboxDoc :=
  match alGet doc.bookmarks bookmarkId with
  | none => doc
  | some bm =>
    let tagsAfterDec := match ch.tags with
      | some _ => bm.tags.foldl decTag doc.tags
      | none => doc.tags
    let bm' := { applyChanges bm ch with updatedAt := now }
    let tagsAfterInc := match ch.tags with
      | some newTags => newTags.foldl incTag tagsAfterDec
      | none => tagsAfterDec
    { doc with bookmarks := alSet doc.bookmarks bookmarkId bm', tags := tagsAfterInc }

/-- deleteBookmark: no-op when the bookmark id is absent; otherwise
decrements the bookmark's tag counters, soft-deletes the record in place
(deleted := true, deletedAt := now) and copies it into deletedBookmarks. -/
def deleteBookmark (doc : FavboxDoc) (bookmarkId : String) (now : Nat) : FavboxDoc :=
  match alGet doc.bookmarks bookmarkId with
  | none => doc
  | some bm =>
    let tags' := if 0 < bm.tags.length then bm.tags.foldl decTag doc.tags else doc.tags
    let bm' := { bm with deleted := true, deletedAt := some now }
    { doc with
      bookmarks := alSet doc.bookmarks bookmarkId bm'
      tags := tags'
      deletedBookmarks := alSet doc.deletedBookmarks bookmarkId bm' }

/-- moveBookmark: no-op when the bookmark id is absent; otherwise rewrites
folderId, folderPath and updatedAt. -/
def moveBookmark (doc : FavboxDoc) (bookmarkId targetFolderId targetFolderPath : String)
    (now : Nat) : FavboxDoc :=
  match alGet doc.bookmarks bookmarkId with
  | none => doc
  | some bm =>
    let bm' := { bm with
      folderId := targetFolderId
      folderPath := targetFolderPath
      updatedAt := now }
    { doc with bookmarks := alSet doc.bookmarks bookmarkId bm' }

/-- addFolder: writes the folder record (with JS defaulting) into the
folder map. -/
def addFolder (doc : FavboxDoc) (f : FolderInput) (now : Nat) : FavboxDoc :=
  let record : Folder :=
    { id := f.id
      browserId := f.browserId.getD ""
      title := f.title
      parentId := f.parentId.getD "root"
      path := f.path.getD (String.append "/" f.title)
      order := 0
      createdAt := f.createdAt.getD now
      updatedAt := now
      deleted := false }
  { doc with folders := alSet doc.folders f.id record }

/-- renameFolder: no-op when the folder id is absent; otherwise rewrites
title and updatedAt. -/
def renameFolder (doc : FavboxDoc) (folderId newTitle : String) (now : Nat) : FavboxDoc :=
  match alGet doc.folders folderId with
  | none => doc
  | some f =>
    let f' := { f with title := newTitle, updatedAt := now }
    { doc with folders := alSet doc.folders folderId f' }

/-- One document mutation intent, covering every exported mutation of
BookmarkDocument.js. -/
inductive DocOp where
  | add (bm : BookmarkInput) (now : Nat)
  | update (bookmarkId : String) (ch : BookmarkChanges) (now : Nat)
  | del (bookmarkId : String) (now : Nat)
  | move (bookmarkId targetFolderId targetFolderPath : String) (now : Nat)
  | addF (f : FolderInput) (now : Nat)
  | renameF (folderId newTitle : String) (now : Nat)
deriving DecidableEq, Repr

/-- Dispatch of one document mutation. -/
def applyDocOp (doc : FavboxDoc) (op : DocOp) : FavboxDoc :=
  match op with
  | .add bm now => addBookmark doc bm now
  | .update bookmarkId ch now => updateBookmark doc bookmarkId ch now
  | .del bookmarkId now => deleteBookmark doc bookmarkId now
  | .move bookmarkId tgt path now => moveBookmark doc bookmarkId tgt path now
  | .addF f now => addFolder doc f now
  | .renameF folderId newTitle now => renameFolder doc folderId newTitle now

/-- Sequential application of a list of document mutations. -/
def applyDocOps (doc : FavboxDoc) (ops : List DocOp) : FavboxDoc :=
  ops.foldl applyDocOp doc

/-!
Per-field last-writer-wins merge model.

The repository delegates merge to the Automerge library (an external
dependency whose implementation is not part of this source tree); the
specification pins down the intended semantics: last-writer-wins per
field, tie-broken by logical timestamp then lexicographic actor id.
The definitions below are modelled from the spec accordingly.
-/

/-- Modelled from the spec: one field-level mutation, the payload of an
Operation — target entity id, field name, new value, logical timestamp
and the writing actor's id.  The Automerge change encoding is missing
from the source tree. -/
structure FieldWrite where
  entityId : String
  field : String
  value : String
  ts : Nat
  actorId : String
deriving DecidableEq, Repr

/-- Register key of a field write: the (entity, field) pair it targets. -/
def FieldWrite.key (w : FieldWrite) : String × String := (w.entityId, w.field)

/-- Modelled from the spec: the last-writer-wins comparison — winsOver a b
holds when write a strictly beats write b, by logical timestamp first and
lexicographic actor id on timestamp ties. -/
def winsOver (a b : FieldWrite) : Bool :=
  decide (b.ts < a.ts) || (decide (b.ts = a.ts) && decide (b.actorId < a.actorId))

/-- Modelled from the spec: fold one incoming write into the current
register value — a first write installs itself, a later write replaces
the register only when it strictly wins. -/
def mergeWrite (cur : Option FieldWrite) (w : FieldWrite) : Option FieldWrite :=
  match cur with
  | none => some w
  | some c => if winsOver w c = true then some w else some c

/-- Modelled from the spec: the merged document as a map from (entity,
field) registers to their winning write. -/
def LWWDoc : Type := String × String → Option FieldWrite

/-- The empty replicated document: every register unset. -/
def lwwEmpty : LWWDoc := fun _ => none

/-- Modelled from the spec: apply (integrate) one operation into a
document — only the targeted register changes, by the LWW rule. -/
def lwwApply (d : LWWDoc) (w : FieldWrite) : LWWDoc :=
  fun k => if k = w.key then mergeWrite (d k) w else d k

/-- Replay of a list of operations in the given order. -/
def lwwApplyAll (d : LWWDoc) (ws : List FieldWrite) : LWWDoc :=
  ws.foldl lwwApply d

/-- Lamport-style uniqueness of operation identities within a set of
writes: two writes sharing logical timestamp and actor are the same
write (the source schema makes (actor, sequence) unique and actors
timestamp their own writes monotonically). -/
def WriteIdsUnique (ws : List FieldWrite) : Prop :=
  ∀ w1 ∈ ws, ∀ w2 ∈ ws, w1.ts = w2.ts → w1.actorId = w2.actorId → w1 = w2

/-!
Operation log, from the crdt_operations schema (operation_hash UNIQUE)
and the spec's append contract; the server append route itself is absent
from the source tree (a TODO in the server entry point).
-/

/-- One operation record as persisted by the crdt_operations table:
device (actor) id, per-actor sequence number, content hash and opaque
payload. -/
structure LogOp where
  deviceId : String
  sequenceNumber : Nat
  operationHash : String
  operationData : String
deriving DecidableEq, Repr

/-- Result of submitting an operation to the log. -/
inductive AppendResult where
  | Accepted
  | Duplicate
deriving DecidableEq, Repr

/-- The per-account operation log in server acceptance order. -/
structure OpLog where
  ops : List LogOp
deriving DecidableEq, Repr

/-- Modelled from the spec: the append route (missing from the source
tree; pinned by the operation_hash UNIQUE column and the spec's
append contract) — an operation whose content hash is already present is
reported as Duplicate and the log is left untouched; otherwise it is
Accepted and appended. -/
def appendOp (log : OpLog) (op : LogOp) : AppendResult × OpLog :=
  if log.ops.any (fun o => o.operationHash = op.operationHash) then
    (AppendResult.Duplicate, log)
  else
    (AppendResult.Accepted, { ops := log.ops ++ [op] })

/-- Hash presence test used by append deduplication. -/
def hashPresent (log : OpLog) (h : String) : Bool :=
  log.ops.any (fun o => o.operationHash = h)

/-!
Sync state and incremental catch-up, from the sync_state schema (one row
per (user, device), cursor column last_sync_operation_id) and the spec's
operationsSince contract; the sync route is absent from the source tree.
-/

/-- One sync_state row: the per-(account, device) cursor — the id of the
last operation known to have been delivered to that device. -/
structure SyncStateRec where
  userId : String
  deviceId : String
  lastSyncOperationId : Nat
deriving DecidableEq, Repr

/-- Modelled from the spec: the incremental catch-up computation (sync
route missing from the source tree) — from the account's log, keyed by
server-assigned monotonic operation id, exactly the operations with id
strictly greater than the device's cursor, in log order. -/
def operationsSince (log : List (Nat × LogOp)) (cursor : Nat) : List (Nat × LogOp) :=
  log.filter (fun p => decide (cursor < p.1))

/-!
Snapshot configuration and trigger, from config.crdt in the server
configuration; the snapshot service is absent from the source tree.
-/

/-- The crdt section of the server configuration object. -/
structure CrdtConfig where
  snapshotInterval : Nat
  maxSnapshotsPerUser : Nat
  operationBatchSize : Nat
deriving DecidableEq, Repr

/-- config.crdt from server config.js. -/
def configCrdt : CrdtConfig :=
  { snapshotInterval := 1000, maxSnapshotsPerUser := 10, operationBatchSize := 100 }

/-- Snapshot-manager bookkeeping per account: operations accepted since
the previous snapshot, and retained snapshot ids (most recent first). -/
structure SnapshotState where
  opsSinceSnapshot : Nat
  snapshots : List Nat
deriving DecidableEq, Repr

/-- Modelled from the spec: the snapshot trigger and retention (snapshot
service missing from the source tree) — each accepted operation advances
the counter; on reaching snapshotInterval a snapshot is created, the
counter resets, and only the maxSnapshotsPerUser most recent snapshots
are retained.  The Bool reports whether a snapshot was created. -/
def recordAcceptedOp (cfg : CrdtConfig) (st : SnapshotState) (newSnapshotId : Nat) :
    SnapshotState × Bool :=
  let n := st.opsSinceSnapshot + 1
  if cfg.snapshotInterval ≤ n then
    ({ opsSinceSnapshot := 0,
       snapshots := (newSnapshotId :: st.snapshots).take cfg.maxSnapshotsPerUser }, true)
  else
    ({ st with opsSinceSnapshot := n }, false)

/-!
WebSocket reconnect backoff, from the scheduleReconnect method of the
backend client (src/services/backend.js).
-/

/-- maxReconnectAttempts field of the backend client constructor. -/
def maxReconnectAttempts : Nat := 5

/-- reconnectDelay field of the backend client constructor (milliseconds). -/
def reconnectDelay : Nat := 1000

/-- The scheduleReconnect method as a function of the current
wsReconnectAttempts counter, returning the scheduled delay in
milliseconds and the counter value after scheduling.  When the counter
has reached maxReconnectAttempts the client waits five minutes and
resets the counter to 0; otherwise it waits reconnectDelay doubled per
recorded attempt, capped at 30000 ms, and increments the counter.  In
both branches the timer callback calls connectWebSocket whenever an auth
token is still held. -/
def scheduleReconnect (wsReconnectAttempts : Nat) : Nat × Nat :=
  if maxReconnectAttempts ≤ wsReconnectAttempts then
    (5 * 60 * 1000, 0)
  else
    (min (reconnectDelay * 2 ^ wsReconnectAttempts) 30000, wsReconnectAttempts + 1)

end Favbox

namespace BookmarkActions

/-!
Undoable deletion, from src/composables/useBookmarkActions.js: a deletion
marks the bookmark pending, schedules the real removal after undoDelay
milliseconds, and can be cancelled by undoDelete until the timer fires;
a failed deferred removal is itself cancelled via undoDelete.
-/

/-- UNDO_DELAY constant of the composable (milliseconds). -/
def UNDO_DELAY : Nat := 10000

/-- One pendingDeletions entry: the original bookmark object and the
wall-clock instant the deferred removal is due. -/
structure PendingEntry where
  bookmark : Favbox.Bookmark
  deleteAt : Nat
deriving DecidableEq, Repr

/-- The module-level pendingDeletions map, bookmark id to entry. -/
def PendingMap : Type := List (String × PendingEntry)

/-- deleteBookmark (the undo-supporting variant): records the bookmark as
pending with its due instant now + undoDelay and schedules the deferred
removal; the browser/backend removal itself is not performed here. -/
def deleteBookmark (pending : PendingMap) (id : String) (bm : Favbox.Bookmark) (now : Nat)
    (undoDelay : Nat) : PendingMap :=
  Favbox.alSet pending id { bookmark := bm, deleteAt := now + undoDelay }

/-- undoDelete: when the id is pending, cancels the scheduled removal,
drops the entry and returns the original bookmark; otherwise returns
none and leaves the state alone. -/
def undoDelete (pending : PendingMap) (id : String) : Option Favbox.Bookmark × PendingMap :=
  match Favbox.alGet pending id with
  | some e => (some e.bookmark, Favbox.alErase pending id)
  | none => (none, pending)

/-- The deferred-removal timer callback: a no-op when the entry was
already undone; on a successful removal the entry is dropped; on a
failed removal the pending deletion is cancelled through undoDelete,
returning the restored bookmark. -/
def timerFire (pending : PendingMap) (id : String) (removalSucceeded : Bool) :
    Option Favbox.Bookmark × PendingMap :=
  match Favbox.alGet pending id with
  | none => (none, pending)
  | some _ =>
    if removalSucceeded then (none, Favbox.alErase pending id)
    else undoDelete pending id

end BookmarkActions

namespace Favbox

/-- Key uniqueness of an association list, the invariant JS objects and
Maps provide by construction. -/
def keysNodup {V : Type} (m : List (String × V)) : Prop :=
  (m.map Prod.fst).Nodup

/-- Every stored tag count is nonnegative. -/
def tagsNonneg (tags : List (String × Int)) : Prop :=
  ∀ p ∈ tags, 0 ≤ p.2

/-- Concrete bookmark record used to instantiate the no-op, tombstone and
undo theorems. -/
def sampleBookmark : Bookmark :=
  { id := "b1"
    browserId := ""
    url := "https://example.com"
    title := "Example"
    description := ""
    folderId := "root"
    folderPath := "/"
    tags := ["vue"]
    notes := "keep"
    favicon := ""
    image := ""
    domain := "example.com"
    keywords := []
    httpStatus := 0
    pinned := 0
    createdAt := 100
    updatedAt := 100
    deleted := false
    deletedAt := none }

/-- Concrete one-bookmark document used to instantiate the tombstone
theorem. -/
def sampleDoc : FavboxDoc :=
  { metadata := { userId := "u", deviceId := "d", version := "1.0.0", createdAt := 0 }
    bookmarks := [("b1", sampleBookmark)]
    folders := []
    tags := [("vue", 1)]
    deletedBookmarks := []
    deletedFolders := [] }

/-- Concrete field write (device A sets the title at t=100) used to
instantiate the convergence and conflict-resolution theorems. -/
def writeTitleX : FieldWrite :=
  { entityId := "b1", field := "title", value := "X", ts := 100, actorId := "aa" }

/-- Concrete field write (device B sets the title at t=150) used to
instantiate the convergence and conflict-resolution theorems. -/
def writeTitleY : FieldWrite :=
  { entityId := "b1", field := "title", value := "Y", ts := 150, actorId := "bb" }

/-- Concrete one-entry operation log used to instantiate the append
theorem. -/
def sampleLog : OpLog :=
  { ops := [{ deviceId := "d", sequenceNumber := 1, operationHash := "h1",
              operationData := "p" }] }

/-- Concrete operation re-submitted with an already-logged content hash,
used to instantiate the append theorem. -/
def resubmittedOp : LogOp :=
  { deviceId := "d2", sequenceNumber := 9, operationHash := "h1", operationData := "q" }

theorem mem_alSet {V : Type} {m : List (String × V)} {k : String} {v : V} {p : String × V}
    (h : p ∈ alSet m k v) : p = (k, v) ∨ p ∈ m := by
  induction m with
  | nil =>
    simp [alSet] at h
    exact Or.inl h
  | cons hd tl ih =>
    by_cases hk : hd.1 = k
    · simp only [alSet, hk, if_pos rfl] at h
      rcases List.mem_cons.mp h with h1 | h2
      · exact Or.inl h1
      · exact Or.inr (List.mem_cons_of_mem _ h2)
    · obtain ⟨k1, v1⟩ := hd
      simp only [alSet, if_neg hk] at h
      rcases List.mem_cons.mp h with h1 | h2
      · exact Or.inr (h1 ▸ List.mem_cons_self _ _)
      · rcases ih h2 with h3 | h4
        · exact Or.inl h3
        · exact Or.inr (List.mem_cons_of_mem _ h4)

theorem alGet_mem {V : Type} {m : List (String × V)} {k : String} {v : V}
    (h : alGet m k = some v) : (k, v) ∈ m := by
  induction m with
  | nil => simp [alGet] at h
  | cons hd tl ih =>
    obtain ⟨k1, v1⟩ := hd
    by_cases hk : k1 = k
    · simp only [alGet, if_pos hk] at h
      subst hk
      injection h with h
      exact h ▸ List.mem_cons_self _ _
    · simp only [alGet, if_neg hk] at h
      exact List.mem_cons_of_mem _ (ih h)

theorem alGet_alSet_self {V : Type} (m : List (String × V)) (k : String) (v : V) :
    alGet (alSet m k v) k = some v := by
  induction m with
  | nil => simp [alSet, alGet]
  | cons hd tl ih =>
    obtain ⟨k1, v1⟩ := hd
    by_cases hk : k1 = k
    · simp [alSet, alGet, hk]
    · simp [alSet, alGet, hk, ih]

theorem alGet_eq_none_of_not_mem_keys {V : Type} {m : List (String × V)} {k : String}
    (h : k ∉ m.map Prod.fst) : alGet m k = none := by
  induction m with
  | nil => rfl
  | cons hd tl ih =>
    obtain ⟨k1, v1⟩ := hd
    simp only [List.map_cons, List.mem_cons] at h
    push_neg at h
    have hne : k1 ≠ k := fun he => h.1 he.symm
    simp only [alGet, if_neg hne]
    exact ih h.2

theorem keys_alSet_subset {V : Type} {m : List (String × V)} {k : String} {v : V} {x : String}
    (h : x ∈ (alSet m k v).map Prod.fst) : x = k ∨ x ∈ m.map Prod.fst := by
  induction m with
  | nil =>
    simp [alSet] at h
    exact Or.inl h
  | cons hd tl ih =>
    obtain ⟨k1, v1⟩ := hd
    by_cases hk : k1 = k
    · simp only [alSet, if_pos hk, List.map_cons, List.mem_cons] at h
      rcases h with h1 | h2
      · exact Or.inl h1
      · exact Or.inr (List.mem_cons_of_mem _ h2)
    · simp only [alSet, if_neg hk, List.map_cons, List.mem_cons] at h
      rcases h with h1 | h2
      · exact Or.inr (h1 ▸ List.mem_cons_self _ _)
      · rcases ih h2 with h3 | h4
        · exact Or.inl h3
        · exact Or.inr (List.mem_cons_of_mem _ h4)

theorem keysNodup_alSet {V : Type} {m : List (String × V)} (k : String) (v : V)
    (h : keysNodup m) : keysNodup (alSet m k v) := by
  induction m with
  | nil => simp [keysNodup, alSet]
  | cons hd tl ih =>
    obtain ⟨k1, v1⟩ := hd
    simp only [keysNodup, List.map_cons, List.nodup_cons] at h
    by_cases hk : k1 = k
    · subst hk
      simpa [keysNodup, alSet] using h
    · have htl := ih h.2
      simp only [keysNodup, alSet, if_neg hk, List.map_cons, List.nodup_cons]
      refine ⟨fun hmem => ?_, htl⟩
      rcases keys_alSet_subset hmem with h1 | h2
      · exact hk h1
      · exact h.1 h2

theorem alGet_alErase_self {V : Type} {m : List (String × V)} (k : String)
    (h : keysNodup m) : alGet (alErase m k) k = none := by
  induction m with
  | nil => rfl
  | cons hd tl ih =>
    obtain ⟨k1, v1⟩ := hd
    simp only [keysNodup, List.map_cons, List.nodup_cons] at h
    by_cases hk : k1 = k
    · simp only [alErase, if_pos hk]
      subst hk
      exact alGet_eq_none_of_not_mem_keys h.1
    · simp only [alErase, if_neg hk, alGet, if_neg hk]
      exact ih h.2

theorem incTag_nonneg {tags : List (String × Int)} (t : String) (h : tagsNonneg tags) :
    tagsNonneg (incTag tags t) := by
  intro p hp
  unfold incTag at hp
  cases hg : alGet tags t with
  | none =>
    rw [hg] at hp
    rcases mem_alSet hp with h1 | h2
    · rw [h1]; norm_num
    · exact h p h2
  | some c =>
    rw [hg] at hp
    rcases mem_alSet hp with h1 | h2
    · rw [h1]
      have := h _ (alGet_mem hg)
      simp only at this ⊢
      omega
    · exact h p h2

theorem decTag_nonneg {tags : List (String × Int)} (t : String) (h : tagsNonneg tags) :
    tagsNonneg (decTag tags t) := by
  intro p hp
  cases hg : alGet tags t with
  | none =>
    simp only [decTag, hg] at hp
    exact h p hp
  | some c =>
    simp only [decTag, hg] at hp
    by_cases hc : (0 : Int) < c
    · rw [if_pos hc] at hp
      rcases mem_alSet hp with h1 | h2
      · rw [h1]
        simp only
        omega
      · exact h p h2
    · rw [if_neg hc] at hp
      exact h p hp

theorem foldl_incTag_nonneg (ts : List String) {tags : List (String × Int)}
    (h : tagsNonneg tags) : tagsNonneg (ts.foldl incTag tags) := by
  induction ts generalizing tags with
  | nil => exact h
  | cons t ts ih => exact ih (incTag_nonneg t h)

theorem foldl_decTag_nonneg (ts : List String) {tags : List (String × Int)}
    (h : tagsNonneg tags) : tagsNonneg (ts.foldl decTag tags) := by
  induction ts generalizing tags with
  | nil => exact h
  | cons t ts ih => exact ih (decTag_nonneg t h)

theorem applyDocOp_tagsNonneg (doc : FavboxDoc) (op : DocOp) (h : tagsNonneg doc.tags) :
    tagsNonneg (applyDocOp doc op).tags := by
  cases op with
  | add bm now =>
    simp only [applyDocOp, addBookmark]
    cases hbt : bm.tags with
    | none => exact h
    | some ts =>
      by_cases hl : 0 < ts.length
      · simpa [hl] using foldl_incTag_nonneg ts h
      · simpa [hl] using h
  | update bookmarkId ch now =>
    simp only [applyDocOp, updateBookmark]
    cases hg : alGet doc.bookmarks bookmarkId with
    | none => exact h
    | some bm =>
      cases hct : ch.tags with
      | none => exact h
      | some newTags =>
        exact foldl_incTag_nonneg newTags (foldl_decTag_nonneg bm.tags h)
  | del bookmarkId now =>
    simp only [applyDocOp, deleteBookmark]
    cases hg : alGet doc.bookmarks bookmarkId with
    | none => exact h
    | some bm =>
      by_cases hl : 0 < bm.tags.length
      · simpa [hl] using foldl_decTag_nonneg bm.tags h
      · simpa [hl] using h
  | move bookmarkId tgt path now =>
    simp only [applyDocOp, moveBookmark]
    cases hg : alGet doc.bookmarks bookmarkId with
    | none => exact h
    | some bm => exact h
  | addF f now => exact h
  | renameF folderId newTitle now =>
    simp only [applyDocOp, renameFolder]
    cases hg : alGet doc.folders folderId with
    | none => exact h
    | some f => exact h

theorem applyDocOps_tagsNonneg (ops : List DocOp) {doc : FavboxDoc}
    (h : tagsNonneg doc.tags) : tagsNonneg (applyDocOps doc ops).tags := by
  induction ops generalizing doc with
  | nil => exact h
  | cons op ops ih => exact ih (applyDocOp_tagsNonneg doc op h)

theorem winsOver_iff (a b : FieldWrite) :
    winsOver a b = true ↔ b.ts < a.ts ∨ (b.ts = a.ts ∧ b.actorId < a.actorId) := by
  simp [winsOver]

theorem winsOver_asymm {a b : FieldWrite} (h : winsOver a b = true) :
    winsOver b a = false := by
  rw [winsOver_iff] at h
  rcases h with h1 | ⟨h2, h3⟩
  · rw [Bool.eq_false_iff]
    intro hc
    rw [winsOver_iff] at hc
    rcases hc with hc1 | ⟨hc2, _⟩
    · omega
    · omega
  · rw [Bool.eq_false_iff]
    intro hc
    rw [winsOver_iff] at hc
    rcases hc with hc1 | ⟨_, hc3⟩
    · omega
    · exact absurd h3 (lt_asymm hc3)

theorem winsOver_trans {a b c : FieldWrite} (hab : winsOver a b = true)
    (hbc : winsOver b c = true) : winsOver a c = true := by
  rw [winsOver_iff] at hab hbc ⊢
  rcases hab with h1 | ⟨h2, h3⟩ <;> rcases hbc with g1 | ⟨g2, g3⟩
  · exact Or.inl (lt_trans g1 h1)
  · exact Or.inl (g2 ▸ h1)
  · exact Or.inl (h2 ▸ g1)
  · exact Or.inr ⟨g2.trans h2, lt_trans g3 h3⟩

theorem winsOver_total (a b : FieldWrite) :
    winsOver a b = true ∨ winsOver b a = true ∨ (a.ts = b.ts ∧ a.actorId = b.actorId) := by
  rcases lt_trichotomy a.ts b.ts with h1 | h2 | h3
  · exact Or.inr (Or.inl ((winsOver_iff b a).mpr (Or.inl h1)))
  · rcases lt_trichotomy a.actorId b.actorId with g1 | g2 | g3
    · exact Or.inr (Or.inl ((winsOver_iff b a).mpr (Or.inr ⟨h2, g1⟩)))
    · exact Or.inr (Or.inr ⟨h2, g2⟩)
    · exact Or.inl ((winsOver_iff a b).mpr (Or.inr ⟨h2.symm, g3⟩))
  · exact Or.inl ((winsOver_iff a b).mpr (Or.inl h3))

theorem winsOver_self (a : FieldWrite) : winsOver a a = false := by
  rw [Bool.eq_false_iff]
  intro hc
  rw [winsOver_iff] at hc
  rcases hc with h1 | ⟨_, h3⟩
  · omega
  · exact lt_irrefl _ h3

/-- Folding two writes with distinct Lamport identities into a register
commutes: last-writer-wins resolution does not depend on arrival order. -/
theorem mergeWrite_comm {a b : FieldWrite}
    (h : a.ts = b.ts → a.actorId = b.actorId → a = b) (z : Option FieldWrite) :
    mergeWrite (mergeWrite z a) b = mergeWrite (mergeWrite z b) a := by
  rcases winsOver_total a b with hab | hba | htie
  case _ =>
    have hba' := winsOver_asymm hab
    cases z with
    | none => simp [mergeWrite, hab, hba']
    | some c =>
      by_cases hac : winsOver a c = true
      · by_cases hbc : winsOver b c = true
        · simp [mergeWrite, hac, hbc, hab, hba']
        · simp [mergeWrite, hac, hbc, hba']
      · by_cases hbc : winsOver b c = true
        · exact absurd (winsOver_trans hab hbc) (by simpa using hac)
        · simp [mergeWrite, hac, hbc]
  case _ =>
    have hab' := winsOver_asymm hba
    cases z with
    | none => simp [mergeWrite, hba, hab']
    | some c =>
      by_cases hbc : winsOver b c = true
      · by_cases hac : winsOver a c = true
        · simp [mergeWrite, hac, hbc, hba, hab']
        · simp [mergeWrite, hac, hbc, hab']
      · by_cases hac : winsOver a c = true
        · exact absurd (winsOver_trans hba hac) (by simpa using hbc)
        · simp [mergeWrite, hac, hbc]
  case _ =>
    have heq : a = b := h htie.1 htie.2
    subst heq
    rfl

/-- Replay read out pointwise: the register a key holds after replaying a
list of writes is the LWW fold of exactly the writes targeting that key,
in replay order. -/
theorem lwwApplyAll_apply (d : LWWDoc) (ws : List FieldWrite) (k : String × String) :
    lwwApplyAll d ws k =
      (ws.filter (fun w => decide (w.key = k))).foldl mergeWrite (d k) := by
  induction ws generalizing d with
  | nil => rfl
  | cons w ws ih =>
    by_cases hk : w.key = k
    · subst hk
      simp only [lwwApplyAll, List.foldl_cons, List.filter_cons, decide_True,
        if_pos rfl]
      rw [show List.foldl lwwApply (lwwApply d w) ws = lwwApplyAll (lwwApply d w) ws from rfl,
        ih]
      simp [lwwApply]
    · simp only [lwwApplyAll, List.foldl_cons, List.filter_cons]
      rw [show List.foldl lwwApply (lwwApply d w) ws = lwwApplyAll (lwwApply d w) ws from rfl,
        ih]
      have hne : ¬k = w.key := fun he => hk he.symm
      have : lwwApply d w k = d k := by
        simp [lwwApply, hne]
      rw [this]
      simp [hk]

/-- LWW folds of two permuted write lists with unique Lamport identities
agree. -/
theorem foldl_mergeWrite_perm {l1 l2 : List FieldWrite} (hu : WriteIdsUnique l1)
    (p : l1.Perm l2) (init : Option FieldWrite) :
    l1.foldl mergeWrite init = l2.foldl mergeWrite init :=
  p.foldl_eq' (fun x hx y hy z => mergeWrite_comm (fun ht ha => hu x hx y hy ht ha) z) init

/-- Replaying two writes on the same register over the empty document,
read at that register. -/
theorem lwwApplyAll_pair (w1 w2 : FieldWrite) (hkey : w1.key = w2.key) :
    lwwApplyAll lwwEmpty [w1, w2] w2.key = mergeWrite (mergeWrite none w1) w2 := by
  simp [lwwApplyAll, lwwApply, lwwEmpty, hkey]

/-- C1: Convergence — two replicas that have applied the same set of
field-write operations, in any order (a permutation also covers a
document and its clone each mutated then merged in either direction,
since merging replays the other side's missing operations), end up with
equal documents.  The hypothesis is the log's Lamport uniqueness: no two
distinct operations share (logical timestamp, actor id). -/
theorem C1_convergence (ws1 ws2 : List FieldWrite) (hu : WriteIdsUnique ws1)
    (hperm : ws1.Perm ws2) :
    lwwApplyAll lwwEmpty ws1 = lwwApplyAll lwwEmpty ws2 := by
  funext k
  rw [lwwApplyAll_apply, lwwApplyAll_apply]
  refine foldl_mergeWrite_perm ?_ (hperm.filter _) _
  intro w1 h1 w2 h2 ht ha
  exact hu w1 (List.mem_of_mem_filter h1) w2 (List.mem_of_mem_filter h2) ht ha

/-- Witness for C1 at the two concrete title writes applied in the two
possible orders. -/
theorem C1_convergence_witness :
    WriteIdsUnique [writeTitleX, writeTitleY] ∧
    List.Perm [writeTitleX, writeTitleY] [writeTitleY, writeTitleX] ∧
    lwwApplyAll lwwEmpty [writeTitleX, writeTitleY] =
      lwwApplyAll lwwEmpty [writeTitleY, writeTitleX] :=
  ⟨by unfold WriteIdsUnique; decide, by decide,
    C1_convergence [writeTitleX, writeTitleY] [writeTitleY, writeTitleX]
      (by unfold WriteIdsUnique; decide) (by decide)⟩

/-- C2: Deterministic per-field conflict resolution — for two writes to
the same register, the later logical timestamp wins in either application
order; on a timestamp tie the outcome is order-independent and fixed
solely by comparing actor ids. -/
theorem C2_deterministic_lww (w1 w2 : FieldWrite) (hkey : w1.key = w2.key) :
    (w1.ts < w2.ts →
      lwwApplyAll lwwEmpty [w1, w2] w2.key = some w2 ∧
      lwwApplyAll lwwEmpty [w2, w1] w2.key = some w2) ∧
    (w1.ts = w2.ts → w1.actorId ≠ w2.actorId →
      lwwApplyAll lwwEmpty [w1, w2] w2.key = lwwApplyAll lwwEmpty [w2, w1] w2.key ∧
      lwwApplyAll lwwEmpty [w1, w2] w2.key =
        some (if w1.actorId < w2.actorId then w2 else w1)) := by
  have e1 := lwwApplyAll_pair w1 w2 hkey
  have e2 := lwwApplyAll_pair w2 w1 hkey.symm
  rw [hkey] at e2
  constructor
  · intro hts
    have hw : winsOver w2 w1 = true := (winsOver_iff _ _).mpr (Or.inl hts)
    have hw' : winsOver w1 w2 = false := winsOver_asymm hw
    rw [e1, e2]
    simp [mergeWrite, hw, hw']
  · intro hts hact
    rw [e1, e2]
    by_cases hlt : w1.actorId < w2.actorId
    · have hw : winsOver w2 w1 = true := (winsOver_iff _ _).mpr (Or.inr ⟨hts, hlt⟩)
      have hw' : winsOver w1 w2 = false := winsOver_asymm hw
      simp [mergeWrite, hw, hw', hlt]
    · have hgt : w2.actorId < w1.actorId := by
        rcases lt_trichotomy w1.actorId w2.actorId with h1 | h2 | h3
        · exact absurd h1 hlt
        · exact absurd h2 hact
        · exact h3
      have hw : winsOver w1 w2 = true := (winsOver_iff _ _).mpr (Or.inr ⟨hts.symm, hgt⟩)
      have hw' : winsOver w2 w1 = false := winsOver_asymm hw
      simp [mergeWrite, hw, hw', hlt]

/-- Witness for C2: the t=150 title write beats the t=100 one in both
application orders. -/
theorem C2_deterministic_lww_witness :
    writeTitleX.key = writeTitleY.key ∧ writeTitleX.ts < writeTitleY.ts ∧
    (lwwApplyAll lwwEmpty [writeTitleX, writeTitleY] writeTitleY.key = some writeTitleY ∧
     lwwApplyAll lwwEmpty [writeTitleY, writeTitleX] writeTitleY.key = some writeTitleY) :=
  ⟨by decide, by decide,
    (C2_deterministic_lww writeTitleX writeTitleY (by decide)).1 (by decide)⟩

/-- C3: Idempotent append — submitting an operation yields Duplicate
exactly when its content hash is already in the log; a Duplicate leaves
the log untouched (a successful no-op, the result type has no error
outcome), and otherwise the operation is Accepted and appended. -/
theorem C3_append_idempotent (log : OpLog) (op : LogOp) :
    ((appendOp log op).1 = AppendResult.Duplicate ↔
      hashPresent log op.operationHash = true) ∧
    (hashPresent log op.operationHash = true → (appendOp log op).2 = log) ∧
    (hashPresent log op.operationHash = false →
      (appendOp log op).1 = AppendResult.Accepted ∧
      (appendOp log op).2.ops = log.ops ++ [op]) := by
  by_cases hp : hashPresent log op.operationHash = true
  · have := hp
    unfold hashPresent at this
    refine ⟨?_, ?_, ?_⟩
    · simp [appendOp, this, hp]
    · intro _
      simp [appendOp, this]
    · intro hc
      rw [hp] at hc
      cases hc
  · have hfalse : hashPresent log op.operationHash = false := by
      simpa using hp
    have := hfalse
    unfold hashPresent at this
    refine ⟨?_, ?_, ?_⟩
    · simp [appendOp, this, hfalse]
    · intro hc
      rw [hfalse] at hc
      cases hc
    · intro _
      simp [appendOp, this]

/-- Witness for C3: re-submitting the lone logged operation reports
Duplicate and leaves the log unchanged. -/
theorem C3_append_idempotent_witness :
    hashPresent sampleLog resubmittedOp.operationHash = true ∧
    (appendOp sampleLog resubmittedOp).2 = sampleLog :=
  ⟨by decide, (C3_append_idempotent sampleLog resubmittedOp).2.1 (by decide)⟩

/-- C4: Tag-count invariant — after any sequence of document operations
applied to a freshly initialized document, every tag reference count in
the tags map is nonnegative; no operation persists a negative count. -/
theorem C4_tag_counts_nonneg (userId deviceId : String) (t0 : Nat) (ops : List DocOp) :
    tagsNonneg (applyDocOps (initFavboxDocument userId deviceId t0) ops).tags :=
  applyDocOps_tagsNonneg ops (by intro p hp; cases hp)

/-- C5: Unknown targets are tolerated as no-ops — updateBookmark,
deleteBookmark and moveBookmark on an absent bookmark id, and
renameFolder on an absent folder id, return the document unchanged (the
embedding is a total function, so no well-formed operation can throw). -/
theorem C5_unknown_target_noop (doc : FavboxDoc) (bookmarkId folderId : String)
    (ch : BookmarkChanges) (tgt path newTitle : String) (now : Nat)
    (hb : alGet doc.bookmarks bookmarkId = none)
    (hf : alGet doc.folders folderId = none) :
    updateBookmark doc bookmarkId ch now = doc ∧
    deleteBookmark doc bookmarkId now = doc ∧
    moveBookmark doc bookmarkId tgt path now = doc ∧
    renameFolder doc folderId newTitle now = doc := by
  refine ⟨?_, ?_, ?_, ?_⟩
  · simp [updateBookmark, hb]
  · simp [deleteBookmark, hb]
  · simp [moveBookmark, hb]
  · simp [renameFolder, hf]

/-- Witness for C5 on the freshly initialized (empty) document. -/
theorem C5_unknown_target_noop_witness :
    alGet (initFavboxDocument "u" "d" 0).bookmarks "b1" = none ∧
    updateBookmark (initFavboxDocument "u" "d" 0) "b1"
        { url := none, title := some "T", description := none, folderId := none,
          folderPath := none, tags := some ["x"], notes := none } 7 =
      initFavboxDocument "u" "d" 0 :=
  ⟨by decide,
    (C5_unknown_target_noop (initFavboxDocument "u" "d" 0) "b1" "f1"
      { url := none, title := some "T", description := none, folderId := none,
        folderPath := none, tags := some ["x"], notes := none }
      "f2" "/f2" "T2" 7 (by decide) (by decide)).1⟩

/-- C6: Tombstone retention — deleting a present bookmark keeps its
record (all fields intact) in the bookmark map with deleted set and
deletedAt stamped, copies it into deletedBookmarks, and in the replicated
model a pre-deletion edit of the deleted flag that carries a later
logical timestamp wins the merge in either order, reviving the entity. -/
theorem C6_tombstone_retention (doc : FavboxDoc) (id : String) (bm : Bookmark)
    (now : Nat) (h : alGet doc.bookmarks id = some bm) :
    alGet (deleteBookmark doc id now).bookmarks id =
      some { bm with deleted := true, deletedAt := some now } ∧
    alGet (deleteBookmark doc id now).deletedBookmarks id =
      some { bm with deleted := true, deletedAt := some now } ∧
    (∀ (eid a1 a2 : String) (t1 t2 : Nat), t1 < t2 →
      lwwApplyAll lwwEmpty
          [{ entityId := eid, field := "deleted", value := "true", ts := t1, actorId := a1 },
           { entityId := eid, field := "deleted", value := "false", ts := t2, actorId := a2 }]
          (eid, "deleted") =
        some { entityId := eid, field := "deleted", value := "false", ts := t2,
               actorId := a2 } ∧
      lwwApplyAll lwwEmpty
          [{ entityId := eid, field := "deleted", value := "false", ts := t2, actorId := a2 },
           { entityId := eid, field := "deleted", value := "true", ts := t1, actorId := a1 }]
          (eid, "deleted") =
        some { entityId := eid, field := "deleted", value := "false", ts := t2,
               actorId := a2 }) := by
  refine ⟨?_, ?_, ?_⟩
  · simp only [deleteBookmark, h]
    exact alGet_alSet_self _ _ _
  · simp only [deleteBookmark, h]
    exact alGet_alSet_self _ _ _
  · intro eid a1 a2 t1 t2 hlt
    have h2 : ¬t2 < t1 := by omega
    have h3 : ¬t2 = t1 := by omega
    constructor
    · simp [lwwApplyAll, lwwApply, lwwEmpty, mergeWrite, winsOver, FieldWrite.key, hlt]
    · simp [lwwApplyAll, lwwApply, lwwEmpty, mergeWrite, winsOver, FieldWrite.key, h2, h3]

/-- Witness for C6 on the concrete one-bookmark document. -/
theorem C6_tombstone_retention_witness :
    alGet sampleDoc.bookmarks "b1" = some sampleBookmark ∧
    alGet (deleteBookmark sampleDoc "b1" 200).bookmarks "b1" =
      some { sampleBookmark with deleted := true, deletedAt := some 200 } :=
  ⟨by decide, (C6_tombstone_retention sampleDoc "b1" sampleBookmark 200 (by decide)).1⟩

/-- C7: Snapshot trigger and retention — the server configuration fixes
snapshotInterval at 1000 and maxSnapshotsPerUser at 10; under that
configuration an accepted operation triggers a snapshot exactly when it
is the 1000th since the previous one, the counter then resets, and the
retained snapshot list keeps at most the 10 most recent ids. -/
theorem C7_snapshot_config (st : SnapshotState) (newId : Nat) :
    configCrdt.snapshotInterval = 1000 ∧
    configCrdt.maxSnapshotsPerUser = 10 ∧
    ((recordAcceptedOp configCrdt st newId).2 = true ↔
      configCrdt.snapshotInterval ≤ st.opsSinceSnapshot + 1) ∧
    ((recordAcceptedOp configCrdt st newId).2 = true →
      (recordAcceptedOp configCrdt st newId).1.opsSinceSnapshot = 0 ∧
      (recordAcceptedOp configCrdt st newId).1.snapshots = (newId :: st.snapshots).take 10 ∧
      (recordAcceptedOp configCrdt st newId).1.snapshots.length ≤ 10) ∧
    ((recordAcceptedOp configCrdt st newId).2 = false →
      (recordAcceptedOp configCrdt st newId).1 =
        { st with opsSinceSnapshot := st.opsSinceSnapshot + 1 }) := by
  by_cases hc : configCrdt.snapshotInterval ≤ st.opsSinceSnapshot + 1
  · have hc1 : (1000 : Nat) ≤ st.opsSinceSnapshot + 1 := hc
    have hc9 : (999 : Nat) ≤ st.opsSinceSnapshot := by omega
    refine ⟨rfl, rfl, ?_, ?_, ?_⟩
    · simp [recordAcceptedOp, configCrdt, hc, hc1, hc9]
    · intro _
      refine ⟨?_, ?_, ?_⟩
      · simp [recordAcceptedOp, configCrdt, hc, hc1, hc9]
      · simp [recordAcceptedOp, configCrdt, hc, hc1, hc9]
      · have hred : (recordAcceptedOp configCrdt st newId).1.snapshots =
            (newId :: st.snapshots).take 10 := by
          simp [recordAcceptedOp, configCrdt, hc, hc1, hc9]
        rw [hred, List.length_take]
        exact min_le_left _ _
    · intro hfalse
      simp [recordAcceptedOp, configCrdt, hc, hc1, hc9] at hfalse
  · have hc1 : ¬(1000 : Nat) ≤ st.opsSinceSnapshot + 1 := hc
    have hc9 : ¬(999 : Nat) ≤ st.opsSinceSnapshot := by omega
    refine ⟨rfl, rfl, ?_, ?_, ?_⟩
    · simp [recordAcceptedOp, configCrdt, hc, hc1, hc9]
    · intro htrue
      simp [recordAcceptedOp, configCrdt, hc, hc1, hc9] at htrue
    · intro _
      simp [recordAcceptedOp, configCrdt, hc, hc1, hc9]

/-- Witness for C7: the 1000th accepted operation since the previous
snapshot triggers one and resets the counter. -/
theorem C7_snapshot_config_witness :
    (recordAcceptedOp configCrdt { opsSinceSnapshot := 999, snapshots := [] } 1).2 = true ∧
    (recordAcceptedOp configCrdt { opsSinceSnapshot := 999, snapshots := [] } 1).1.snapshots =
      [1] ∧
    (recordAcceptedOp configCrdt
        { opsSinceSnapshot := 999, snapshots := [] } 1).1.opsSinceSnapshot = 0 :=
  ⟨(C7_snapshot_config { opsSinceSnapshot := 999, snapshots := [] } 1).2.2.1.mpr (by decide),
    by
      have := (C7_snapshot_config { opsSinceSnapshot := 999, snapshots := [] } 1).2.2.2.1
        ((C7_snapshot_config { opsSinceSnapshot := 999, snapshots := [] } 1).2.2.1.mpr
          (by decide))
      simpa using this.2.1,
    ((C7_snapshot_config { opsSinceSnapshot := 999, snapshots := [] } 1).2.2.2.1
      ((C7_snapshot_config { opsSinceSnapshot := 999, snapshots := [] } 1).2.2.1.mpr
        (by decide))).1⟩

/-- C8: Sync cursor semantics — the catch-up set computed for a device
cursor contains an operation exactly when that operation is in the
account log with server-assigned id strictly greater than the cursor,
and it preserves the log's acceptance order (it is a sublist). -/
theorem C8_operations_since (log : List (Nat × LogOp)) (cursor : Nat) (p : Nat × LogOp) :
    (p ∈ operationsSince log cursor ↔ p ∈ log ∧ cursor < p.1) ∧
    (operationsSince log cursor).Sublist log := by
  constructor
  · simp [operationsSince, List.mem_filter]
  · exact List.filter_sublist log

/-- C9: Reconnect backoff — while the failure counter is below
maxReconnectAttempts the next attempt is scheduled after
min(1000 * 2 ^ counter, 30000) ms and the counter advances; once it
reaches 5 the client waits five minutes (300000 ms) and resets the
counter to 0; in every case a strictly positive finite delay is
scheduled, so reconnection is never abandoned while a token is held. -/
theorem C9_reconnect_backoff (k : Nat) :
    (k < maxReconnectAttempts →
      scheduleReconnect k = (min (1000 * 2 ^ k) 30000, k + 1)) ∧
    (maxReconnectAttempts ≤ k → scheduleReconnect k = (5 * 60 * 1000, 0)) ∧
    0 < (scheduleReconnect k).1 := by
  refine ⟨?_, ?_, ?_⟩
  · intro h
    have hn : ¬maxReconnectAttempts ≤ k := by
      unfold maxReconnectAttempts at h ⊢
      omega
    simp [scheduleReconnect, reconnectDelay, hn]
  · intro h
    simp [scheduleReconnect, h]
  · by_cases h : maxReconnectAttempts ≤ k
    · simp [scheduleReconnect, h]
    · have hpow : 0 < 2 ^ k := pow_pos (by norm_num) k
      simp only [scheduleReconnect, h, if_neg h, reconnectDelay]
      have hmin : 0 < min (1000 * 2 ^ k) 30000 := by
        rw [lt_min_iff]
        constructor
        · positivity
        · norm_num
      exact hmin

/-- Witness for C9 below and at the attempt cap. -/
theorem C9_reconnect_backoff_witness :
    scheduleReconnect 3 = (min (1000 * 2 ^ 3) 30000, 3 + 1) ∧
    scheduleReconnect 5 = (5 * 60 * 1000, 0) :=
  ⟨(C9_reconnect_backoff 3).1 (by decide), (C9_reconnect_backoff 5).2.1 (by decide)⟩

end Favbox

/-- C10: Undoable deletion — the composable's deleteBookmark does not
remove the bookmark: it records it pending with its removal due
undoDelay ms later (UNDO_DELAY defaults to 10000); undoDelete before the
timer fires returns the original bookmark and cancels the pending
removal; and a deferred removal that fails is itself cancelled through
undoDelete, restoring the bookmark rather than losing it. -/
theorem C10_undoable_deletion (pending : BookmarkActions.PendingMap) (id : String)
    (bm : Favbox.Bookmark) (now undoDelay : Nat) (hnd : Favbox.keysNodup pending) :
    BookmarkActions.UNDO_DELAY = 10000 ∧
    Favbox.alGet (BookmarkActions.deleteBookmark pending id bm now undoDelay) id =
      some { bookmark := bm, deleteAt := now + undoDelay } ∧
    (BookmarkActions.undoDelete
        (BookmarkActions.deleteBookmark pending id bm now undoDelay) id).1 = some bm ∧
    Favbox.alGet (BookmarkActions.undoDelete
        (BookmarkActions.deleteBookmark pending id bm now undoDelay) id).2 id = none ∧
    (BookmarkActions.timerFire
        (BookmarkActions.deleteBookmark pending id bm now undoDelay) id false).1 = some bm ∧
    Favbox.alGet (BookmarkActions.timerFire
        (BookmarkActions.deleteBookmark pending id bm now undoDelay) id false).2 id = none := by
  have hget : Favbox.alGet (BookmarkActions.deleteBookmark pending id bm now undoDelay) id =
      some { bookmark := bm, deleteAt := now + undoDelay } :=
    Favbox.alGet_alSet_self pending id _
  have hnd' : Favbox.keysNodup (BookmarkActions.deleteBookmark pending id bm now undoDelay) :=
    Favbox.keysNodup_alSet id _ hnd
  have herase : Favbox.alGet (Favbox.alErase
      (BookmarkActions.deleteBookmark pending id bm now undoDelay) id) id = none :=
    Favbox.alGet_alErase_self id hnd'
  refine ⟨rfl, hget, ?_, ?_, ?_, ?_⟩
  · simp [BookmarkActions.undoDelete, hget]
  · simp only [BookmarkActions.undoDelete, hget]
    exact herase
  · simp [BookmarkActions.timerFire, BookmarkActions.undoDelete, hget]
  · simp only [BookmarkActions.timerFire, BookmarkActions.undoDelete, hget, if_neg]
    simpa using herase

/-- Witness for C10 starting from an empty pending map. -/
theorem C10_undoable_deletion_witness :
    Favbox.keysNodup ([] : BookmarkActions.PendingMap) ∧
    (BookmarkActions.undoDelete
        (BookmarkActions.deleteBookmark [] "b1" Favbox.sampleBookmark 50
          BookmarkActions.UNDO_DELAY) "b1").1 = some Favbox.sampleBookmark :=
  ⟨by simp [Favbox.keysNodup],
    (C10_undoable_deletion [] "b1" Favbox.sampleBookmark 50 BookmarkActions.UNDO_DELAY
      (by simp [Favbox.keysNodup])).2.2.1⟩
